import Mathlib

/-!
Verification of the lexical analyzer (`src/graphql/core/language/lexer.py`) and the
validation framework (`src/graphql/core/validation/__init__.py`) of the graphqllib
repository.

The Python source is shallowly embedded: the source buffer is a `List Char` indexed by
positions (Python's `body[pos]`), `char_code_at` returns `0` out of bounds exactly as in
the source, fallible scanners return `Except LexErr Token`, and each `while` loop becomes
a recursion whose `gas` argument is instantiated with an upper bound on the number of
iterations (every loop advances `position` by at least one per iteration while
`position < body.length`, so `body.length - position` iterations suffice; when the gas
hits zero the invariant forces `position ≥ body.length`, where each embedded base case
returns exactly what the Python loop returns in that state).
-/

namespace GraphQL

/-- Python's `ord(s[pos])` guarded by bounds: `char_code_at` from lexer.py
returns 0 when `pos` is out of range (and an in-range NUL also yields 0,
exactly as in the source where both are falsy). -/
def char_code_at (body : List Char) (pos : Nat) : Nat :=
  match body[pos]? with
  | some c => c.toNat
  | none => 0

/-- Python's slice `body[a:b]` (as a string). -/
def slice (body : List Char) (a b : Nat) : String :=
  String.mk ((body.drop a).take (b - a))

/-- The closed token kind enumeration from lexer.py (`TokenKind`). -/
inductive TokenKind where
  | EOF | BANG | DOLLAR | PAREN_L | PAREN_R | SPREAD | COLON | EQUALS | AT
  | BRACKET_L | BRACKET_R | BRACE_L | PIPE | BRACE_R
  | NAME | VARIABLE | INT | FLOAT | STRING
  deriving DecidableEq, Repr

/-- A lexical token: `Token(kind, start, end, value=None)` from lexer.py.
(`end` is a Lean keyword, hence the field name `end_`.) -/
structure Token where
  kind : TokenKind
  start : Nat
  end_ : Nat
  value : Option String := none
  deriving DecidableEq, Repr

/-- The message of a `LanguageError` raised by the lexer. The source uses exactly
these four message forms; the human-readable rendering of the offending character
appended by `json.dumps` in the "unexpected character" case is abstracted away. -/
inductive ErrMsg where
  | unexpectedCharacter
  | invalidNumber
  | badCharacterEscape
  | unterminatedString
  deriving DecidableEq, Repr

/-- A `LanguageError(source, position, message)`: the source object is implicit
(the `body` being scanned), so the error carries position and message. -/
structure LexErr where
  position : Nat
  message : ErrMsg
  deriving DecidableEq, Repr

deriving instance DecidableEq for Except

/-- The `PUNCT_CODE_TO_KIND` table from lexer.py (`.get` returns `None` for keys
outside the table). -/
def punct_code_to_kind : Nat → Option TokenKind
  | 33 => some .BANG
  | 36 => some .DOLLAR
  | 40 => some .PAREN_L
  | 41 => some .PAREN_R
  | 58 => some .COLON
  | 61 => some .EQUALS
  | 64 => some .AT
  | 91 => some .BRACKET_L
  | 93 => some .BRACKET_R
  | 123 => some .BRACE_L
  | 124 => some .PIPE
  | 125 => some .BRACE_R
  | _ => none

/-- The inner comment-skipping loop of `position_after_whitespace`:
`while position < body_length: ... if not code or code in (10, 13, 0x2028, 0x2029): break`.
`gas` bounds the iteration count (the loop advances `position` by one while
`position < body.length`, so any `gas ≥ body.length - position` is exact). -/
def skipCommentAux (body : List Char) : Nat → Nat → Nat
  | 0, position => position
  | gas + 1, position =>
    if position < body.length then
      let code := char_code_at body position
      if code = 0 ∨ code = 10 ∨ code = 13 ∨ code = 0x2028 ∨ code = 0x2029 then position
      else skipCommentAux body gas (position + 1)
    else position

/-- The outer loop of `position_after_whitespace` from lexer.py: skips spaces, commas,
NBSP, line/paragraph separators, control whitespace (codes 9–13), and `#` comments. -/
def pawAux (body : List Char) : Nat → Nat → Nat
  | 0, position => position
  | gas + 1, position =>
    if position < body.length then
      let code := char_code_at body position
      if code = 32 ∨ code = 44 ∨ code = 160 ∨ code = 0x2028 ∨ code = 0x2029 ∨
          (8 < code ∧ code < 14) then
        pawAux body gas (position + 1)
      else if code = 35 then
        pawAux body gas (skipCommentAux body (body.length - (position + 1)) (position + 1))
      else position
    else position

/-- `position_after_whitespace(body, start_position)` from lexer.py. -/
def position_after_whitespace (body : List Char) (start_position : Nat) : Nat :=
  pawAux body (body.length - start_position) start_position

/-- The scanning loop of `read_name`:
`while end != body_length: ... if not code or not (name char): break; end += 1`. -/
def readNameAux (body : List Char) : Nat → Nat → Nat
  | 0, end_ => end_
  | gas + 1, end_ =>
    if end_ ≠ body.length then
      let code := char_code_at body end_
      if code = 95 ∨ (48 ≤ code ∧ code ≤ 57) ∨ (65 ≤ code ∧ code ≤ 90) ∨
          (97 ≤ code ∧ code ≤ 122) then
        readNameAux body gas (end_ + 1)
      else end_
    else end_

/-- `read_name(source, position)` from lexer.py: `[_A-Za-z][_0-9A-Za-z]*`
(the leading character was already checked by `read_token`). -/
def read_name (body : List Char) (position : Nat) : Token :=
  let e := readNameAux body (body.length - (position + 1)) (position + 1)
  { kind := .NAME, start := position, end_ := e, value := some (slice body position e) }

/-- A digit-consuming loop (`while 48 <= code <= 57: position += 1; ...`),
used three times in `read_number`. -/
def skipDigitsAux (body : List Char) : Nat → Nat → Nat
  | 0, position => position
  | gas + 1, position =>
    if 48 ≤ char_code_at body position ∧ char_code_at body position ≤ 57 then
      skipDigitsAux body gas (position + 1)
    else position

/-- The digit run starting at `position`: the position of the first non-digit at or
after `position`. -/
def skipDigits (body : List Char) (position : Nat) : Nat :=
  skipDigitsAux body (body.length - position) position

/-- The fraction/exponent tail of `read_number`, starting from the end of the
integer part (`pos`); `is_float` is true (and the token kind `FLOAT`) exactly when
the `.` branch is taken, and the exponent branch of the source is nested inside the
fraction branch. -/
def readNumberFrac (body : List Char) (start pos : Nat) : Except LexErr Token :=
  let code := char_code_at body pos
  if code = 46 then
    -- fractional part: '.' followed by one or more digits
    let pf := pos + 1
    let cf := char_code_at body pf
    if 48 ≤ cf ∧ cf ≤ 57 then
      let pd := skipDigits body (pf + 1)
      let cd := char_code_at body pd
      -- exponent: 'e', optional '-', one or more digits (inside the fraction branch)
      if cd = 101 then
        let pe := pd + 1
        let ce := char_code_at body pe
        let pm := if ce = 45 then pe + 1 else pe
        let cm := char_code_at body pm
        if 48 ≤ cm ∧ cm ≤ 57 then
          let pend := skipDigits body (pm + 1)
          .ok { kind := .FLOAT, start := start, end_ := pend, value := some (slice body start pend) }
        else .error { position := pm, message := .invalidNumber }
      else
        .ok { kind := .FLOAT, start := start, end_ := pd, value := some (slice body start pd) }
    else .error { position := pf, message := .invalidNumber }
  else
    .ok { kind := .INT, start := start, end_ := pos, value := some (slice body start pos) }

/-- `read_number(source, start, first_code)` from lexer.py, translated step by step.
Grammar from its docstring:
`Int: -?(0|[1-9][0-9]*)` and `Float: -?(0|[1-9][0-9]*)\.[0-9]+(e-?[0-9]+)?`. -/
def read_number (body : List Char) (start : Nat) (first_code : Nat) : Except LexErr Token :=
  -- if code == 45: position += 1; code = char_code_at(body, position)
  let p1 := if first_code = 45 then start + 1 else start
  let c1 := if first_code = 45 then char_code_at body p1 else first_code
  -- integer part: a lone 0, or a nonzero digit followed by digits
  if c1 = 48 then
    readNumberFrac body start (p1 + 1)
  else if 49 ≤ c1 ∧ c1 ≤ 57 then
    readNumberFrac body start (skipDigits body (p1 + 1))
  else
    .error { position := p1, message := .invalidNumber }

/-- The `ESCAPED_CHAR_CODES` table from lexer.py. -/
def escaped_char_codes (code : Nat) : Option Char :=
  if code = 34 then some '"'
  else if code = 47 then some '/'
  else if code = 92 then some '\\'
  else if code = 98 then some (Char.ofNat 8)    -- '\b'
  else if code = 102 then some (Char.ofNat 12)  -- '\f'
  else if code = 110 then some '\n'
  else if code = 114 then some '\r'
  else if code = 116 then some '\t'
  else none

/-- `char2hex(a)` from lexer.py: hex digit code to value, -1 on error. -/
def char2hex (a : Nat) : Int :=
  if 48 ≤ a ∧ a ≤ 57 then (a : Int) - 48       -- 0-9
  else if 65 ≤ a ∧ a ≤ 70 then (a : Int) - 55  -- A-F
  else if 97 ≤ a ∧ a ≤ 102 then (a : Int) - 87 -- a-f
  else -1

/-- `uni_char_code(a, b, c, d)` from lexer.py. The source computes
`char2hex(a) << 12 | char2hex(b) << 8 | char2hex(c) << 4 | char2hex(d)`; since each
`char2hex` result is either -1 or in [0, 15], the bitwise OR of the shifted values is
negative iff some digit was invalid, and otherwise the OR of bit-disjoint values equals
their sum.  The embedding states that extensional value directly. -/
def uni_char_code (a b c d : Nat) : Int :=
  if char2hex a < 0 ∨ char2hex b < 0 ∨ char2hex c < 0 ∨ char2hex d < 0 then -1
  else char2hex a * 4096 + char2hex b * 256 + char2hex c * 16 + char2hex d

/-- Python 2's `unichr`: code point to character. (Surrogate code points, which
`Char.ofNat` maps to NUL, do not occur in any property proved below.) -/
def unichr (code : Nat) : Char := Char.ofNat code

/-- The scanning loop of `read_string` from lexer.py, threading the `code` variable
across iterations exactly as the source does: `code` starts as `None`, each loop pass
reads the character at `position`, and the escape branch at line 285 *reassigns* `code`
to the character after the backslash.  When the loop finishes — by `break` (on the
fresh `code`) or by the guard failing at end-of-input (on the possibly stale `code`) —
the source runs the post-loop `if code != 34: raise 'Unterminated string'`, else
returns the token with `end = position + 1`.  In particular a body ending in the
escape sequence backslash-quote leaves the stale `code == 34` and is accepted, with
`end` one past the buffer.
One iteration per loop pass; `position` advances by at least one per pass while
`position < body.length`, so `gas ≥ body.length - position + 1` is enough, and at
gas 0 the invariant gives `position ≥ body.length`, where the loop guard fails and the
same post-loop check runs — exactly the base case here. -/
def readStringAux (body : List Char) (start : Nat) :
    Nat → Nat → Nat → String → Option Nat → Except LexErr Token
  | 0, position, chunk_start, value, code =>
    -- loop guard failed: the post-loop check `if code != 34` on the stale code
    if code = some 34 then
      .ok { kind := .STRING, start := start, end_ := position + 1,
            value := some (value ++ slice body chunk_start position) }
    else .error { position := position, message := .unterminatedString }
  | gas + 1, position, chunk_start, value, code =>
    if position < body.length then
      let code := char_code_at body position
      if code = 0 ∨ code = 34 ∨ code = 10 ∨ code = 13 ∨ code = 0x2028 ∨ code = 0x2029 then
        -- loop break: success on a closing quote, otherwise unterminated
        if code = 34 then
          .ok { kind := .STRING, start := start, end_ := position + 1,
                value := some (value ++ slice body chunk_start position) }
        else .error { position := position, message := .unterminatedString }
      else
        -- position += 1
        let p1 := position + 1
        if code = 92 then  -- backslash
          let v1 := value ++ slice body chunk_start (p1 - 1)
          let ecode := char_code_at body p1
          match escaped_char_codes ecode with
          | some escaped =>
            -- value += escaped; position += 1; chunk_start = position
            readStringAux body start gas (p1 + 1) (p1 + 1) (v1.push escaped) (some ecode)
          | none =>
            if ecode = 117 then  -- u
              let cc := uni_char_code (char_code_at body (p1 + 1)) (char_code_at body (p1 + 2))
                  (char_code_at body (p1 + 3)) (char_code_at body (p1 + 4))
              if cc < 0 then .error { position := p1, message := .badCharacterEscape }
              else
                -- value += unichr(char_code); position += 4; position += 1; chunk_start = position
                readStringAux body start gas (p1 + 4 + 1) (p1 + 4 + 1)
                  (v1.push (unichr cc.toNat)) (some ecode)
            else .error { position := p1, message := .badCharacterEscape }
        else readStringAux body start gas p1 chunk_start value (some code)
    else
      -- loop guard failed: the post-loop check `if code != 34` on the stale code
      if code = some 34 then
        .ok { kind := .STRING, start := start, end_ := position + 1,
              value := some (value ++ slice body chunk_start position) }
      else .error { position := position, message := .unterminatedString }

/-- `read_string(source, start)` from lexer.py:
`"([^"\\\u000A\u000D  ]|(\\(u[0-9a-fA-F]{4}|["\\/bfnrt])))*"`. -/
def read_string (body : List Char) (start : Nat) : Except LexErr Token :=
  readStringAux body start (body.length - (start + 1) + 1) (start + 1) (start + 1) "" none

/-- `read_token(source, from_position)` from lexer.py: skip whitespace and comments,
then emit EOF / a punctuator / SPREAD / a name / a number / a string, or raise
"Unexpected character". -/
def read_token (body : List Char) (from_position : Nat) : Except LexErr Token :=
  let position := position_after_whitespace body from_position
  let code := char_code_at body position
  if position ≥ body.length then
    .ok { kind := .EOF, start := position, end_ := position }
  else
    match punct_code_to_kind code with
    | some kind => .ok { kind := kind, start := position, end_ := position + 1 }
    | none =>
      if code = 46 then  -- .
        if char_code_at body (position + 1) = 46 ∧ char_code_at body (position + 2) = 46 then
          .ok { kind := .SPREAD, start := position, end_ := position + 3 }
        else
          -- falls through to the "Unexpected character" raise at `position`
          .error { position := position, message := .unexpectedCharacter }
      else if (65 ≤ code ∧ code ≤ 90) ∨ code = 95 ∨ (97 ≤ code ∧ code ≤ 122) then
        .ok (read_name body position)
      else if code = 45 ∨ (48 ≤ code ∧ code ≤ 57) then
        read_number body position code
      else if code = 34 then
        read_string body position
      else .error { position := position, message := .unexpectedCharacter }

/-- The `Lexer` object from lexer.py: a source buffer plus the mutable
`prev_position` resumption cursor. -/
structure Lexer where
  source : List Char
  prev_position : Nat
  deriving DecidableEq, Repr

/-- `Lexer.next_token(reset_position=None)`: scan from the explicit position if given,
else from `prev_position`; advance `prev_position` to the returned token's end. -/
def next_token (l : Lexer) (reset_position : Option Nat) : Except LexErr (Token × Lexer) :=
  let pos := reset_position.getD l.prev_position
  match read_token l.source pos with
  | .error e => .error e
  | .ok token => .ok (token, { l with prev_position := token.end_ })

/-- Repeatedly calling `next_token` with no explicit position until an EOF token is
returned (the consumption pattern named in the spec's resumability property), with a
step budget: `none` means the budget was exhausted before EOF. -/
def lexAll : Nat → Lexer → Option (Except LexErr (List Token))
  | 0, _ => none
  | fuel + 1, l =>
    match next_token l none with
    | .error e => some (.error e)
    | .ok (t, l') =>
      if t.kind = .EOF then some (.ok [t])
      else (lexAll fuel l').map (fun r => r.map (fun ts => t :: ts))

/-!
## Validation framework (`src/graphql/core/validation/__init__.py`)

The AST, the generic traversal engine (`..language.visitor`) and `TypeInfo`
(`..utils`) are external collaborators of the validation module and are not under
`src/`; they are modelled from the spec as noted on each definition below.  The
logic of `validate`, `visit_using_rules`, `ValidationVisitor.enter/leave`,
`is_error`/`append` and `ValidationContext.get_fragment` is translated from the
source.
-/

/-- Modelled from the spec: the AST node variants relevant to validation
(Document, OperationDefinition, FragmentDefinition, FragmentSpread, Field), each
carrying a name where applicable and its child selections. -/
inductive Node where
  | document (definitions : List Node)
  | operationDefinition (name : Option String) (selections : List Node)
  | fragmentDefinition (name : String) (selections : List Node)
  | fragmentSpread (name : String)
  | field (name : String) (selections : List Node)

/-- Modelled from the spec: the children the generic traversal engine descends into. -/
def Node.children : Node → List Node
  | .document defs => defs
  | .operationDefinition _ sels => sels
  | .fragmentDefinition _ sels => sels
  | .fragmentSpread _ => []
  | .field _ sels => sels

/-- `isinstance(node, FragmentDefinition)`. -/
def Node.isFragmentDefinition : Node → Bool
  | .fragmentDefinition _ _ => true
  | _ => false

/-- A `GraphQLError` (`..error`): message plus originating nodes, here reduced to
the message (the claims only distinguish errors, never inspect node lists). -/
structure GError where
  message : String
  deriving DecidableEq, Repr

/-- The three-outcome result channel of a rule's `enter`/`leave` hook, as named by
the spec: `None` (continue), `False` (skip subtree), or a list of `GraphQLError`s
(a single error is the singleton list).  Python's `is_error` accepts both shapes. -/
inductive RuleResult where
  | noneR
  | falseR
  | errorsR (errors : List GError)
  deriving DecidableEq, Repr

/-- A rule instance bound to the shared context: `enter`/`leave` hooks (receiving the
node and its key; the `parent`/`path`/`ancestors` arguments, which no claim touches,
are omitted) plus the optional `visit_spread_fragments` capability flag read by
`ValidationVisitor.__init__` via `getattr(instance, 'visit_spread_fragments', False)`. -/
structure Rule where
  enter : Node → Option Nat → RuleResult
  leave : Node → RuleResult
  visit_spread_fragments : Bool := false

/-- The mutable state threaded through one traversal: the shared `TypeInfo` context
stack and the shared error accumulator.  Modelled from the spec: `TypeInfo` is a
stack-based type context; `TypeInfo.enter(node)` pushes the node's context and
`TypeInfo.leave(node)` pops it, so the stack is represented by the list of entered
nodes. -/
structure VisitorState where
  typeInfo : List Node
  errors : List GError

/-- The `result and is_error(result)` conversion in `ValidationVisitor.enter/leave`:
a truthy error (or non-empty all-error list) is appended to the accumulator and the
result becomes `False`.  An empty list is falsy in Python, so it is *not* converted
(`append` is never reached for it). -/
def convertResult : RuleResult → RuleResult × List GError
  | .errorsR es => if es = [] then (.errorsR [], []) else (.falseR, es)
  | r => (r, [])

/-- Python truthiness of the traversal `key` argument: `None` and the list index `0`
are falsy (the source tests `key and self.visit_spread_fragments`). -/
def keyTruthy : Option Nat → Bool
  | none => false
  | some k => k ≠ 0

/-- Modelled from the spec: the traversal engine hands each child to the visitor with
its index in the parent's child list as the `key`. -/
def tagChildren (ns : List Node) : List (Node × Option Nat) :=
  ns.enum.map (fun p => (p.2, some p.1))

/-- `ValidationVisitor.leave`: call the rule's `leave`, append a truthy error result
to the accumulator, then always `type_info.leave(node)` (pop). -/
def applyLeave (rule : Rule) (node : Node) (st : VisitorState) : VisitorState :=
  let conv := convertResult (rule.leave node)
  { typeInfo := st.typeInfo.tail, errors := st.errors ++ conv.2 }

/-- One depth-first traversal of a task list by `visit(…, ValidationVisitor(…))`,
with `ValidationVisitor.enter` translated line by line from the source:

1. `self.type_info.enter(node)` — always push first;
2. `if isinstance(node, FragmentDefinition) and key and self.visit_spread_fragments:
   return False` — note this early return does **not** pop `type_info`;
3. call the rule's `enter`; a truthy error result is appended and becomes `False`;
4. `if result is None and self.visit_spread_fragments and isinstance(node,
   FragmentSpread): … visit(fragment, self)` — recursively visit the referenced
   fragment (looked up through the context's fragment cache) as a fresh root
   (`key = None`);
5. `if result is False: self.type_info.leave(node)` — pop, and the traversal engine
   then skips the children *and* the `leave` hook (modelled from the spec: a `False`
   enter result means "skip subtree", with no matching natural `leave`).

The generic engine itself (modelled from the spec) visits children in order with
their indices as keys, then calls `ValidationVisitor.leave`.  `fuel` bounds the
recursion depth; `none` means the budget was exhausted (the Python original has no
such bound — that difference is exactly what claims C1/C2 are about). -/
def visitList (rule : Rule) (frags : String → Option Node) (vsf : Bool) :
    Nat → VisitorState → List (Node × Option Nat) → Option VisitorState
  | 0, _, _ => none
  | _ + 1, st, [] => some st
  | fuel + 1, st, (node, key) :: rest =>
    let ti := node :: st.typeInfo
    if node.isFragmentDefinition && keyTruthy key && vsf then
      -- early `return False`: TypeInfo not popped, children and leave skipped
      visitList rule frags vsf fuel { st with typeInfo := ti } rest
    else
      let conv := convertResult (rule.enter node key)
      let st1 : VisitorState := { typeInfo := ti, errors := st.errors ++ conv.2 }
      let afterSpread : Option VisitorState :=
        if conv.1 = .noneR ∧ vsf then
          match node with
          | .fragmentSpread fname =>
            match frags fname with
            | some fragment => visitList rule frags vsf fuel st1 [(fragment, none)]
            | none => some st1
          | _ => some st1
        else some st1
      match afterSpread with
      | none => none
      | some st2 =>
        if conv.1 = .falseR then
          -- `type_info.leave(node)` then `return False`: subtree and leave skipped
          visitList rule frags vsf fuel { st2 with typeInfo := st2.typeInfo.tail } rest
        else
          match visitList rule frags vsf fuel st2 (tagChildren node.children) with
          | none => none
          | some st3 => visitList rule frags vsf fuel (applyLeave rule node st3) rest

/-- Python-dict insertion (`fragments[name] = statement`): replace an existing
binding in place, else append. Only `get` is observable. -/
def dictInsert : List (String × Node) → String → Node → List (String × Node)
  | [], k, v => [(k, v)]
  | (k', v') :: rest, k, v =>
    if k' = k then (k, v) :: rest else (k', v') :: dictInsert rest k v

/-- Python-dict lookup (`fragments.get(name)`). -/
def dictGet : List (String × Node) → String → Option Node
  | [], _ => none
  | (k', v') :: rest, k => if k' = k then some v' else dictGet rest k

/-- The cache-building scan in `ValidationContext.get_fragment`:
`for statement in self.get_ast().definitions: if isinstance(statement,
FragmentDefinition): fragments[statement.name.value] = statement`. -/
def buildFragments (defs : List Node) : List (String × Node) :=
  defs.foldl
    (fun m d =>
      match d with
      | .fragmentDefinition fname _ => dictInsert m fname d
      | _ => m)
    []

/-- `ValidationContext`: the document plus the lazily built fragment-name cache
(`_fragments` is `None` until the first `get_fragment` call).  The schema and
`TypeInfo` references carried by the Python object play no role in the claims here
and are omitted. -/
structure ValidationContext where
  _ast : Node
  _fragments : Option (List (String × Node))

/-- `document.definitions`, used by the cache-building scan (`_ast` is a Document). -/
def docDefinitions : Node → List Node
  | .document defs => defs
  | _ => []

/-- `ValidationContext.get_fragment(name)`: build the name→definition map on first
call, then serve every lookup from the cache.  The third component counts how many
times this call scanned the document's top-level definitions (the spec's
"instrumentation counter": 1 when the cache is built, 0 on a cache hit). -/
def get_fragment (ctx : ValidationContext) (name : String) :
    Option Node × ValidationContext × Nat :=
  match ctx._fragments with
  | some fragments => (dictGet fragments name, ctx, 0)
  | none =>
    let fragments := buildFragments (docDefinitions ctx._ast)
    (dictGet fragments name, { ctx with _fragments := some fragments }, 1)

/-- The fragment lookup the visitor performs through the shared context
(`self.instance.context.get_fragment(node.name.value)`).  The cache is built at most
once per `validate` call and the document never changes, so every lookup returns
`dictGet` of the built map. -/
def fragmentLookup (doc : Node) : String → Option Node :=
  fun name => dictGet (buildFragments (docDefinitions doc)) name

/-- The per-rule loop of `visit_using_rules`: one full traversal per rule, sharing
one `TypeInfo` and one error accumulator (both live in `VisitorState`). -/
def runRules (fuel : Nat) (frags : String → Option Node) (doc : Node) :
    List Rule → VisitorState → Option VisitorState
  | [], st => some st
  | rule :: rest, st =>
    match visitList rule frags rule.visit_spread_fragments fuel st [(doc, none)] with
    | none => none
    | some st' => runRules fuel frags doc rest st'

/-- `visit_using_rules(schema, ast, rules)`: build the shared context and `TypeInfo`,
run every rule, return the accumulated errors (`none` = the fuel bound was hit). -/
def visit_using_rules (fuel : Nat) (doc : Node) (rules : List Rule) :
    Option (List GError) :=
  (runRules fuel (fragmentLookup doc) doc rules { typeInfo := [], errors := [] }).map
    (fun st => st.errors)

/-- The external `GraphQLSchema` type (`..type`); its contents are never consulted
by the code under verification. -/
structure GraphQLSchema where
  deriving DecidableEq, Repr

/-- The dynamically typed `schema` argument of `validate`: absent (`None`, falsy), a
genuine `GraphQLSchema` instance (truthy), or some other truthy object that is not a
schema instance. -/
inductive SchemaArg where
  | noneA
  | schemaA (s : GraphQLSchema)
  | otherA
  deriving DecidableEq, Repr

/-- Python truthiness of the `schema` argument (`assert schema`). -/
def SchemaArg.truthy : SchemaArg → Bool
  | .noneA => false
  | _ => true

/-- `isinstance(schema, GraphQLSchema)`. -/
def SchemaArg.isSchemaInstance : SchemaArg → Bool
  | .schemaA _ => true
  | _ => false

/-- A failed `assert` raises `AssertionError` in Python. -/
inductive PyErr where
  | assertionError
  deriving DecidableEq, Repr

/-- `validate(schema, ast, rules)` from validation/__init__.py:
`assert schema`, `assert ast`, `assert isinstance(schema, GraphQLSchema)`, then run
the rules.  The `ast` argument is `Option Node` (`None` is falsy, a Document object
is truthy).  The default rule list (`specified_rules` — twenty-two rule classes
outside `src/`) is irrelevant to every claim, so the rule list is explicit here. -/
def validate (fuel : Nat) (schema : SchemaArg) (ast : Option Node) (rules : List Rule) :
    Except PyErr (Option (List GError)) :=
  if ¬ schema.truthy then .error .assertionError
  else if ast.isNone then .error .assertionError
  else if ¬ schema.isSchemaInstance then .error .assertionError
  else
    match ast with
    | some doc => .ok (visit_using_rules fuel doc rules)
    | none => .ok none

/-- Termination of a `validate` call in the fuel model: some finite recursion budget
lets the traversals run to completion and produce the error sequence. -/
def validateTerminates (schema : SchemaArg) (ast : Option Node) (rules : List Rule) : Prop :=
  ∃ fuel errs, validate fuel schema ast rules = .ok (some errs)

/-- The shape of the integer part of a number starting at `s` and ending at `e`:
either the single digit `0`, or a nonzero digit followed by digits
(`0|[1-9][0-9]*`, the grammar stated by the spec and by `read_number`'s docstring). -/
def intPartShape (body : List Char) (s e : Nat) : Prop :=
  (char_code_at body s = 48 ∧ e = s + 1) ∨
  (49 ≤ char_code_at body s ∧ char_code_at body s ≤ 57 ∧ s < e ∧
    ∀ i, s < i → i < e → 48 ≤ char_code_at body i ∧ char_code_at body i ≤ 57)

/-- Stated from the spec's words (for comparison with `get_fragment`): the last
top-level FragmentDefinition named `name`, in document order — later definitions
overwrite earlier ones. -/
def specLastFragmentNamed (ds : List Node) (name : String) : Option Node :=
  ds.foldl
    (fun acc d =>
      match d with
      | .fragmentDefinition fname _ => if fname = name then some d else acc
      | _ => acc)
    none

/-- A fragment that spreads itself: `fragment F on T ... { ...F }`. -/
def fragF : Node := .fragmentDefinition "F" [.fragmentSpread "F"]

/-- A document whose only definition is the self-spreading fragment `F`. -/
def cyclicDoc : Node := .document [fragF]

/-- A fragment definition with no selections, used at a non-root position. -/
def fragG : Node := .fragmentDefinition "G" []

/-- A document with an operation first and a fragment definition second, so the
fragment is traversed with key index 1 (truthy). -/
def skipCaseDoc : Node := .document [.operationDefinition none [], fragG]

/-- A rule that opts into spread-fragment visiting and always continues (`None` from
both hooks) — a legal rule under the framework contract. -/
def spreadContinueRule : Rule :=
  { enter := fun _ _ => .noneR, leave := fun _ => .noneR, visit_spread_fragments := true }

/-- A rule without the spread-fragment capability that always continues. -/
def plainContinueRule : Rule :=
  { enter := fun _ _ => .noneR, leave := fun _ => .noneR, visit_spread_fragments := false }

/-- A rule whose `enter` always skips the subtree (`False`). -/
def skipRule : Rule :=
  { enter := fun _ _ => .falseR, leave := fun _ => .noneR, visit_spread_fragments := false }

/-- Two top-level fragment definitions sharing the name `A` (different bodies). -/
def fragA1 : Node := .fragmentDefinition "A" []

/-- The second definition named `A`, with a different selection set. -/
def fragA2 : Node := .fragmentDefinition "A" [.field "x" []]

/-- Fuel sufficient (for rules without the spread capability) to finish one
traversal of a task list: one unit per list node plus the budget of the deepest
child list. -/
def weightTasks : List Node → Nat
  | [] => 1
  | n :: rest => 1 + max (weightTasks n.children) (weightTasks rest)
termination_by ns => sizeOf ns
decreasing_by
  all_goals cases n <;> simp [Node.children] <;> omega

/-!
## Lexer lemmas
-/

theorem char_code_at_lt_of_ne_zero (body : List Char) (p : Nat)
    (h : char_code_at body p ≠ 0) : p < body.length := by
  by_contra hle
  push_neg at hle
  simp [char_code_at, List.getElem?_eq_none hle] at h

theorem skipDigitsAux_ge (body : List Char) :
    ∀ gas p, p ≤ skipDigitsAux body gas p := by
  intro gas
  induction gas with
  | zero => intro p; simp [skipDigitsAux]
  | succ g ih =>
    intro p
    simp only [skipDigitsAux]
    split
    · exact le_trans (Nat.le_succ p) (ih (p + 1))
    · exact le_refl p

theorem skipDigitsAux_le (body : List Char) :
    ∀ gas p, p ≤ body.length → skipDigitsAux body gas p ≤ body.length := by
  intro gas
  induction gas with
  | zero => intro p hp; simpa [skipDigitsAux] using hp
  | succ g ih =>
    intro p hp
    simp only [skipDigitsAux]
    split
    · rename_i hdig
      have hlt : p < body.length :=
        char_code_at_lt_of_ne_zero body p (by omega)
      exact ih (p + 1) (by omega)
    · exact hp

theorem skipDigitsAux_digits (body : List Char) :
    ∀ gas p i, p ≤ i → i < skipDigitsAux body gas p →
      48 ≤ char_code_at body i ∧ char_code_at body i ≤ 57 := by
  intro gas
  induction gas with
  | zero => intro p i hpi hi; simp [skipDigitsAux] at hi; omega
  | succ g ih =>
    intro p i hpi hi
    simp only [skipDigitsAux] at hi
    split at hi
    · rename_i hdig
      rcases Nat.eq_or_lt_of_le hpi with heq | hlt
      · subst heq; exact hdig
      · exact ih (p + 1) i hlt hi
    · omega

theorem skipDigits_ge (body : List Char) (p : Nat) : p ≤ skipDigits body p :=
  skipDigitsAux_ge body _ p

theorem skipDigits_le (body : List Char) (p : Nat) (hp : p ≤ body.length) :
    skipDigits body p ≤ body.length :=
  skipDigitsAux_le body _ p hp

theorem skipDigits_digits (body : List Char) (p i : Nat) (hpi : p ≤ i)
    (hi : i < skipDigits body p) :
    48 ≤ char_code_at body i ∧ char_code_at body i ≤ 57 :=
  skipDigitsAux_digits body _ p i hpi hi

/-- The result of the fraction/exponent tail: token identity, exact-substring value,
bounds, and the kind/`.`-character dichotomy. -/
theorem readNumberFrac_spec (body : List Char) (start pos : Nat) (t : Token)
    (hpos : pos ≤ body.length) (h : readNumberFrac body start pos = .ok t) :
    t.start = start ∧ t.value = some (slice body t.start t.end_) ∧
    pos ≤ t.end_ ∧ t.end_ ≤ body.length ∧
    ((t.kind = .INT ∧ t.end_ = pos) ∨
      (t.kind = .FLOAT ∧ char_code_at body pos = 46 ∧ pos < t.end_)) := by
  simp only [readNumberFrac] at h
  split at h
  · rename_i hdot
    split at h
    · rename_i hfrac
      have hposlt : pos < body.length :=
        char_code_at_lt_of_ne_zero body pos (by omega)
      have hpf : pos + 1 < body.length :=
        char_code_at_lt_of_ne_zero body (pos + 1) (by omega)
      have hpd_ge : pos + 2 ≤ skipDigits body (pos + 1 + 1) := skipDigits_ge body _
      have hpd_le : skipDigits body (pos + 1 + 1) ≤ body.length :=
        skipDigits_le body _ (by omega)
      split at h
      · rename_i hexp
        -- the optional exponent sign (the nested `if` in `let pm := …`) splits first
        split at h
        · rename_i hsgn
          split at h
          · rename_i hm
            have hmlt : skipDigits body (pos + 1 + 1) + 1 + 1 < body.length :=
              char_code_at_lt_of_ne_zero body _ (by omega)
            have hend_ge := skipDigits_ge body (skipDigits body (pos + 1 + 1) + 1 + 1 + 1)
            have hend_le :=
              skipDigits_le body (skipDigits body (pos + 1 + 1) + 1 + 1 + 1) (by omega)
            cases h
            dsimp only
            exact ⟨rfl, rfl, by omega, hend_le, Or.inr ⟨rfl, hdot, by omega⟩⟩
          · exact absurd h (by simp)
        · rename_i hsgn
          split at h
          · rename_i hm
            have hmlt : skipDigits body (pos + 1 + 1) + 1 < body.length :=
              char_code_at_lt_of_ne_zero body _ (by omega)
            have hend_ge := skipDigits_ge body (skipDigits body (pos + 1 + 1) + 1 + 1)
            have hend_le :=
              skipDigits_le body (skipDigits body (pos + 1 + 1) + 1 + 1) (by omega)
            cases h
            dsimp only
            exact ⟨rfl, rfl, by omega, hend_le, Or.inr ⟨rfl, hdot, by omega⟩⟩
          · exact absurd h (by simp)
      · cases h
        dsimp only
        exact ⟨rfl, rfl, by omega, hpd_le, Or.inr ⟨rfl, hdot, by omega⟩⟩
    · exact absurd h (by simp)
  · cases h
    dsimp only
    exact ⟨rfl, rfl, le_refl _, hpos, Or.inl ⟨rfl, rfl⟩⟩

/-- Facts about a successful `read_number`, called — as `read_token` calls it — with
`first_code = char_code_at body start`: token bounds, exact-substring value, two
possible kinds, integer-part grammar for `INT`, and "FLOAT iff a `.` occurs in the
matched span". -/
theorem read_number_spec (body : List Char) (start : Nat) (t : Token)
    (h : read_number body start (char_code_at body start) = .ok t) :
    t.start = start ∧ start < t.end_ ∧ t.end_ ≤ body.length ∧
    t.value = some (slice body t.start t.end_) ∧
    (t.kind = .INT ∨ t.kind = .FLOAT) ∧
    (t.kind = .INT →
      intPartShape body (if char_code_at body start = 45 then start + 1 else start) t.end_) ∧
    (t.kind = .FLOAT ↔ ∃ i, t.start ≤ i ∧ i < t.end_ ∧ char_code_at body i = 46) := by
  simp only [read_number] at h
  set p1 := if char_code_at body start = 45 then start + 1 else start with hp1
  have hp1_ge : start ≤ p1 := by rw [hp1]; split <;> omega
  have hp1_le : p1 ≤ start + 1 := by rw [hp1]; split <;> omega
  have hstart45 : p1 = start ∨ char_code_at body start = 45 := by
    rw [hp1]; split
    · rename_i hx; exact Or.inr hx
    · exact Or.inl rfl
  have hc1 : (if char_code_at body start = 45 then char_code_at body p1
      else char_code_at body start) = char_code_at body p1 := by
    split
    · rfl
    · rename_i hx
      have hps : p1 = start := by rw [hp1]; simp [hx]
      rw [hps]
  rw [hc1] at h
  split at h
  · rename_i h48
    have hp1lt : p1 < body.length := char_code_at_lt_of_ne_zero body p1 (by omega)
    obtain ⟨hts, htv, hposle, hle, hdi⟩ :=
      readNumberFrac_spec body start (p1 + 1) t (by omega) h
    refine ⟨hts, by omega, hle, htv, ?_, ?_, ?_, ?_⟩
    · rcases hdi with ⟨hk, _⟩ | ⟨hk, _, _⟩
      · exact Or.inl hk
      · exact Or.inr hk
    · intro hkind
      rcases hdi with ⟨hk, hend⟩ | ⟨hk, _, _⟩
      · exact Or.inl ⟨h48, by omega⟩
      · rw [hkind] at hk; exact absurd hk (by simp)
    · intro hkind
      rcases hdi with ⟨hk, _⟩ | ⟨hk, hdot, hlt⟩
      · rw [hkind] at hk; exact absurd hk (by simp)
      · exact ⟨p1 + 1, by omega, hlt, hdot⟩
    · rintro ⟨i, hi1, hi2, hi46⟩
      rcases hdi with ⟨hk, hend⟩ | ⟨hk, _, _⟩
      · exfalso
        rw [hts] at hi1
        have hcase : i = start ∨ i = p1 := by omega
        rcases hcase with rfl | rfl
        · rcases hstart45 with hps | h45
          · rw [hps] at h48; omega
          · omega
        · omega
      · exact hk
  · split at h
    · rename_i h19
      have hp1lt : p1 < body.length := char_code_at_lt_of_ne_zero body p1 (by omega)
      have hpos0_ge : p1 + 1 ≤ skipDigits body (p1 + 1) := skipDigits_ge body _
      have hpos0_le : skipDigits body (p1 + 1) ≤ body.length := skipDigits_le body _ (by omega)
      obtain ⟨hts, htv, hposle, hle, hdi⟩ :=
        readNumberFrac_spec body start (skipDigits body (p1 + 1)) t hpos0_le h
      refine ⟨hts, by omega, hle, htv, ?_, ?_, ?_, ?_⟩
      · rcases hdi with ⟨hk, _⟩ | ⟨hk, _, _⟩
        · exact Or.inl hk
        · exact Or.inr hk
      · intro hkind
        rcases hdi with ⟨hk, hend⟩ | ⟨hk, _, _⟩
        · refine Or.inr ⟨h19.1, h19.2, by omega, ?_⟩
          intro i hi1 hi2
          exact skipDigits_digits body (p1 + 1) i (by omega) (by omega)
        · rw [hkind] at hk; exact absurd hk (by simp)
      · intro hkind
        rcases hdi with ⟨hk, _⟩ | ⟨hk, hdot, hlt⟩
        · rw [hkind] at hk; exact absurd hk (by simp)
        · exact ⟨skipDigits body (p1 + 1), by omega, hlt, hdot⟩
      · rintro ⟨i, hi1, hi2, hi46⟩
        rcases hdi with ⟨hk, hend⟩ | ⟨hk, _, _⟩
        · exfalso
          rw [hts] at hi1
          have hcase : i = start ∨ i = p1 ∨ (p1 + 1 ≤ i ∧ i < skipDigits body (p1 + 1)) := by
            omega
          rcases hcase with rfl | rfl | ⟨hgt, hlt'⟩
          · rcases hstart45 with hps | h45
            · rw [hps] at h19; omega
            · omega
          · omega
          · have := skipDigits_digits body (p1 + 1) i hgt hlt'
            omega
        · exact hk
    · exact absurd h (by simp)

theorem readNameAux_ge (body : List Char) :
    ∀ gas e, e ≤ readNameAux body gas e := by
  intro gas
  induction gas with
  | zero => intro e; simp [readNameAux]
  | succ g ih =>
    intro e
    simp only [readNameAux]
    split
    · split
      · exact le_trans (Nat.le_succ e) (ih (e + 1))
      · exact le_refl e
    · exact le_refl e

theorem readNameAux_le (body : List Char) :
    ∀ gas e, e ≤ body.length → readNameAux body gas e ≤ body.length := by
  intro gas
  induction gas with
  | zero => intro e he; simpa [readNameAux] using he
  | succ g ih =>
    intro e he
    simp only [readNameAux]
    split
    · split
      · rename_i hch
        have : e < body.length := char_code_at_lt_of_ne_zero body e (by omega)
        exact ih (e + 1) (by omega)
      · exact he
    · exact he

theorem read_name_spec (body : List Char) (position : Nat) :
    (read_name body position).kind = .NAME ∧
    (read_name body position).start = position ∧
    position < (read_name body position).end_ ∧
    (position + 1 ≤ body.length → (read_name body position).end_ ≤ body.length) := by
  refine ⟨rfl, rfl, ?_, ?_⟩
  · have := readNameAux_ge body (body.length - (position + 1)) (position + 1)
    simp only [read_name]
    omega
  · intro hle
    have := readNameAux_le body (body.length - (position + 1)) (position + 1) hle
    simpa [read_name] using this

theorem skipCommentAux_ge (body : List Char) :
    ∀ gas p, p ≤ skipCommentAux body gas p := by
  intro gas
  induction gas with
  | zero => intro p; simp [skipCommentAux]
  | succ g ih =>
    intro p
    simp only [skipCommentAux]
    split
    · split
      · exact le_refl p
      · exact le_trans (Nat.le_succ p) (ih (p + 1))
    · exact le_refl p

theorem skipCommentAux_le (body : List Char) :
    ∀ gas p, p ≤ body.length → skipCommentAux body gas p ≤ body.length := by
  intro gas
  induction gas with
  | zero => intro p hp; simpa [skipCommentAux] using hp
  | succ g ih =>
    intro p hp
    simp only [skipCommentAux]
    split
    · rename_i hlt
      split
      · exact hp
      · exact ih (p + 1) (by omega)
    · exact hp

theorem pawAux_ge (body : List Char) :
    ∀ gas p, p ≤ pawAux body gas p := by
  intro gas
  induction gas with
  | zero => intro p; simp [pawAux]
  | succ g ih =>
    intro p
    simp only [pawAux]
    split
    · split
      · exact le_trans (Nat.le_succ p) (ih (p + 1))
      · split
        · have h1 := skipCommentAux_ge body (body.length - (p + 1)) (p + 1)
          have h2 := ih (skipCommentAux body (body.length - (p + 1)) (p + 1))
          omega
        · exact le_refl p
    · exact le_refl p

theorem pawAux_le (body : List Char) :
    ∀ gas p, p ≤ body.length → pawAux body gas p ≤ body.length := by
  intro gas
  induction gas with
  | zero => intro p hp; simpa [pawAux] using hp
  | succ g ih =>
    intro p hp
    simp only [pawAux]
    split
    · rename_i hlt
      split
      · exact ih (p + 1) (by omega)
      · split
        · exact ih _ (skipCommentAux_le body _ (p + 1) (by omega))
        · exact hp
    · exact hp

theorem paw_ge (body : List Char) (p : Nat) :
    p ≤ position_after_whitespace body p :=
  pawAux_ge body _ p

theorem paw_le (body : List Char) (p : Nat) (hp : p ≤ body.length) :
    position_after_whitespace body p ≤ body.length :=
  pawAux_le body _ p hp

theorem uni_char_code_last_zero (a b c : Nat) : uni_char_code a b c 0 < 0 := by
  simp only [uni_char_code]
  rw [if_pos (Or.inr (Or.inr (Or.inr (by decide))))]
  decide

/-- Every successful exit of the string loop — including a stale-code success at the
end of the buffer — yields a STRING token that extends past the entry position and
ends at most one past the buffer (the `+ 1` is reached exactly when the last consumed
escape was a backslash-quote and the buffer then ran out). -/
theorem readStringAux_spec (body : List Char) (start : Nat) :
    ∀ gas pos cs v code t, pos ≤ body.length →
      readStringAux body start gas pos cs v code = .ok t →
      t.kind = .STRING ∧ t.start = start ∧ pos < t.end_ ∧ t.end_ ≤ body.length + 1 := by
  intro gas
  induction gas with
  | zero =>
    intro pos cs v code t hpos h
    simp only [readStringAux] at h
    split at h
    · cases h
      dsimp only
      exact ⟨rfl, rfl, by omega, by omega⟩
    · exact absurd h (by simp)
  | succ g ih =>
    intro pos cs v code t hpos h
    simp only [readStringAux] at h
    split at h
    · rename_i hlt
      split at h
      · split at h
        · cases h
          dsimp only
          exact ⟨rfl, rfl, by omega, by omega⟩
        · exact absurd h (by simp)
      · split at h
        · split at h
          · rename_i escaped hesc
            have hne : char_code_at body (pos + 1) ≠ 0 := by
              intro h0
              rw [h0] at hesc
              exact Option.noConfusion hesc
            have hlt1 : pos + 1 < body.length := char_code_at_lt_of_ne_zero body _ hne
            have := ih _ _ _ _ _ (by omega) h
            exact ⟨this.1, this.2.1, by omega, this.2.2.2⟩
          · split at h
            · split at h
              · exact absurd h (by simp)
              · rename_i hcc
                have h4 : char_code_at body (pos + 1 + 4) ≠ 0 := by
                  intro h0
                  rw [h0] at hcc
                  exact hcc (uni_char_code_last_zero _ _ _)
                have hlt4 : pos + 1 + 4 < body.length :=
                  char_code_at_lt_of_ne_zero body _ h4
                have := ih _ _ _ _ _ (by omega) h
                exact ⟨this.1, this.2.1, by omega, this.2.2.2⟩
            · exact absurd h (by simp)
        · have := ih _ _ _ _ _ (by omega) h
          exact ⟨this.1, this.2.1, by omega, this.2.2.2⟩
    · split at h
      · cases h
        dsimp only
        exact ⟨rfl, rfl, by omega, by omega⟩
      · exact absurd h (by simp)

theorem read_string_spec (body : List Char) (start : Nat) (t : Token)
    (h : read_string body start = .ok t) :
    t.kind = .STRING ∧ t.start = start ∧ start < t.end_ ∧ t.end_ ≤ body.length + 1 := by
  by_cases hle : start + 1 ≤ body.length
  · have := readStringAux_spec body start _ (start + 1) (start + 1) "" none t hle h
    exact ⟨this.1, this.2.1, by omega, this.2.2.2⟩
  · exfalso
    have hgas : body.length - (start + 1) + 1 = 0 + 1 := by omega
    rw [read_string, hgas] at h
    simp only [readStringAux] at h
    rw [if_neg (by omega)] at h
    simp at h

theorem punct_ne_EOF (code : Nat) (k : TokenKind)
    (h : punct_code_to_kind code = some k) : k ≠ .EOF := by
  intro hk
  subst hk
  simp only [punct_code_to_kind] at h
  split at h <;> first
    | exact Option.noConfusion h
    | (injection h with hh; exact absurd hh (by decide))

/-- Progress of one `read_token` scan: the token starts at or after the requested
position; an EOF token is zero-width and sits at or past the end of the buffer, any
other token has a nonempty span starting inside the buffer and ending at most one
past it (one past only for a STRING ending in a stale backslash-quote escape). -/
theorem read_token_progress (body : List Char) (p : Nat) (t : Token)
    (h : read_token body p = .ok t) :
    p ≤ t.start ∧
    ((t.kind = .EOF ∧ t.start = t.end_ ∧ body.length ≤ t.start ∧
        t.start = position_after_whitespace body p ∧ t.value = none) ∨
      (t.kind ≠ .EOF ∧ t.start < t.end_ ∧ t.end_ ≤ body.length + 1 ∧
        t.start < body.length)) := by
  have hpaw := paw_ge body p
  simp only [read_token] at h
  split at h
  · rename_i hge
    cases h
    exact ⟨hpaw, Or.inl ⟨rfl, rfl, hge, rfl, rfl⟩⟩
  · rename_i hge
    push_neg at hge
    split at h
    · rename_i k hk
      cases h
      dsimp only
      exact ⟨hpaw, Or.inr ⟨punct_ne_EOF _ k hk, by omega, by omega, hge⟩⟩
    · split at h
      · rename_i h46
        split at h
        · rename_i hdots
          have h2 : position_after_whitespace body p + 2 < body.length :=
            char_code_at_lt_of_ne_zero body _ (by omega)
          cases h
          dsimp only
          exact ⟨hpaw, Or.inr ⟨by simp, by omega, by omega, hge⟩⟩
        · exact absurd h (by simp)
      · split at h
        · rename_i hname
          cases h
          obtain ⟨hk, hs, hlt, hle⟩ := read_name_spec body (position_after_whitespace body p)
          refine ⟨?_, Or.inr ⟨?_, ?_, ?_, ?_⟩⟩
          · rw [hs]; exact hpaw
          · rw [hk]; simp
          · rw [hs]; exact hlt
          · exact Nat.le_succ_of_le (hle (by omega))
          · rw [hs]; exact hge
        · split at h
          · rename_i hnum
            obtain ⟨hs, hlt, hle, _, hkind, _, _⟩ := read_number_spec body _ t h
            rcases hkind with hk | hk <;>
              exact ⟨by omega, Or.inr ⟨by simp [hk], by omega, Nat.le_succ_of_le hle, by omega⟩⟩
          · split at h
            · rename_i hquote
              obtain ⟨hk, hs, hlt, hle⟩ := read_string_spec body _ t h
              exact ⟨by omega, Or.inr ⟨by simp [hk], by omega, hle, by omega⟩⟩
            · exact absurd h (by simp)

/-- Tokenizing from any resumption point at most one past the buffer terminates
within a linear fuel budget and, when no lexical error occurs, produces a token list
ending in the single zero-width EOF token at or past the end of the buffer, all
other tokens having nonempty spans.  (The EOF can sit at `body.length + 1` rather
than `body.length`: a STRING accepted through the stale backslash-quote escape ends
one past the buffer, and the following scan emits EOF there.) -/
theorem lexAll_spec (body : List Char) :
    ∀ fuel p, p ≤ body.length + 1 → body.length + 2 - p ≤ fuel →
      lexAll fuel { source := body, prev_position := p } ≠ none ∧
      ∀ ts, lexAll fuel { source := body, prev_position := p } = some (.ok ts) →
        (∃ t, ts.getLast? = some t ∧ t.kind = .EOF ∧ t.start = t.end_ ∧
          body.length ≤ t.start ∧ t.value = none) ∧
        ts.countP (fun tok => tok.kind = .EOF) = 1 ∧
        ∀ tok ∈ ts, tok.kind ≠ .EOF → tok.start < tok.end_ := by
  intro fuel
  induction fuel with
  | zero => intro p hp hf; omega
  | succ f ih =>
    intro p hp hf
    have hunfold : lexAll (f + 1) ⟨body, p⟩ =
        match read_token body p with
        | .error e => some (.error e)
        | .ok t =>
          if t.kind = .EOF then some (.ok [t])
          else (lexAll f ⟨body, t.end_⟩).map (fun r => r.map (fun ts => t :: ts)) := by
      simp only [lexAll, next_token, Option.getD]
      rcases read_token body p with e | t <;> rfl
    rcases hrt : read_token body p with e | t
    · rw [hrt] at hunfold
      dsimp only at hunfold
      rw [hunfold]
      exact ⟨by simp, by intro ts hts; simp at hts⟩
    · rw [hrt] at hunfold
      dsimp only at hunfold
      obtain ⟨hps, hdi⟩ := read_token_progress body p t hrt
      rcases hdi with ⟨hke, heq, hlen, hpaw, hval⟩ | ⟨hke, hlt, hle, hstart⟩
      · rw [hunfold, if_pos hke]
        refine ⟨by simp, ?_⟩
        intro ts hts
        injection hts with hts
        injection hts with hts
        subst hts
        refine ⟨⟨t, by simp, hke, heq, hlen, hval⟩, by simp [List.countP_cons, hke], ?_⟩
        intro tok hm hne
        simp at hm
        subst hm
        exact absurd hke hne
      · rw [hunfold, if_neg hke]
        obtain ⟨hsome, hprops⟩ := ih t.end_ (by omega) (by omega)
        rcases hl : lexAll f ⟨body, t.end_⟩ with _ | r
        · exact absurd hl hsome
        · refine ⟨by simp, ?_⟩
          intro ts hts
          rcases r with e' | ts'
          · exact absurd hts (by simp [Except.map])
          · simp [Except.map] at hts
            subst hts
            obtain ⟨⟨t0, hlast0, hk0, he0, hl0, hv0⟩, hcount, hmem⟩ := hprops ts' hl
            have hne : ts' ≠ [] := by
              intro hnil
              rw [hnil] at hlast0
              simp at hlast0
            refine ⟨⟨t0, ?_, hk0, he0, hl0, hv0⟩, ?_, ?_⟩
            · rcases ts' with _ | ⟨b, l⟩
              · exact absurd rfl hne
              · rw [List.getLast?_cons_cons]
                exact hlast0
            · rw [List.countP_cons]
              simp [hke, hcount]
            · intro tok hm hne'
              rcases List.mem_cons.mp hm with rfl | hm'
              · exact hlt
              · exact hmem tok hm' hne'

/-- The scanning loop copies a run of ordinary characters (no NUL, quote, backslash
or line terminator) verbatim: visiting positions `1+j, …, 1+s.length` of the body
`"s"` leaves `value` and `chunk_start` untouched until the closing quote, where the
whole run is appended in one slice. -/
theorem readStringAux_verbatim (s : List Char)
    (hok : ∀ c ∈ s, c.toNat ≠ 0 ∧ c.toNat ≠ 34 ∧ c.toNat ≠ 92 ∧
      c.toNat ≠ 10 ∧ c.toNat ≠ 13 ∧ c.toNat ≠ 0x2028 ∧ c.toNat ≠ 0x2029) :
    ∀ n j gas code, s.length - j = n → j ≤ s.length → gas = s.length + 2 - j →
      readStringAux ('"' :: (s ++ ['"'])) 0 gas (1 + j) 1 "" code =
        .ok (Token.mk .STRING 0 (s.length + 2) (some (String.mk s))) := by
  have hlen : ('"' :: (s ++ ['"'])).length = s.length + 2 := by simp
  intro n
  induction n with
  | zero =>
    intro j gas code hn hj hgas
    have hj' : j = s.length := by omega
    subst hj'
    have hchar : char_code_at ('"' :: (s ++ ['"'])) (1 + s.length) = 34 := by
      simp only [char_code_at]
      rw [Nat.add_comm 1 s.length, List.getElem?_cons_succ,
        List.getElem?_append_right (le_refl _)]
      simp
    rw [show gas = 1 + 1 from by omega]
    simp only [readStringAux]
    rw [if_pos (show 1 + s.length < ('"' :: (s ++ ['"'])).length from by omega), hchar]
    norm_num
    have hslice : slice ('"' :: (s ++ ['"'])) 1 (1 + s.length) = String.mk s := by
      simp only [slice]
      rw [show 1 + s.length - 1 = s.length from by omega]
      simp only [List.drop_one, List.tail_cons, List.take_left]
    rw [hslice]
    constructor
    · omega
    · rfl
  | succ m ih =>
    intro j gas code hn hj hgas
    have hjlt : j < s.length := by omega
    have hchar : char_code_at ('"' :: (s ++ ['"'])) (1 + j) = (s.get ⟨j, hjlt⟩).toNat := by
      simp only [char_code_at]
      rw [Nat.add_comm 1 j, List.getElem?_cons_succ, List.getElem?_append_left hjlt,
        List.getElem?_eq_getElem hjlt]
      simp [List.get_eq_getElem]
    obtain ⟨h0, h34, h92, h10, h13, h28, h29⟩ :=
      hok (s.get ⟨j, hjlt⟩) (by simp [List.get_eq_getElem])
    rw [show gas = (s.length + 1 - j) + 1 from by omega]
    simp only [readStringAux]
    rw [if_pos (show 1 + j < ('"' :: (s ++ ['"'])).length from by omega), hchar]
    rw [if_neg (by push_neg; exact ⟨h0, h34, h10, h13, h28, h29⟩), if_neg h92]
    rw [show 1 + j + 1 = 1 + (j + 1) from by omega,
      show s.length + 1 - j = s.length + 2 - (j + 1) from by omega]
    exact ih (j + 1) _ _ (by omega) (by omega) rfl

/-- A double-quoted string whose content contains no NUL, quote, backslash or line
terminator lexes to one STRING token spanning the quotes inclusively whose value is
the content verbatim. -/
theorem read_string_verbatim (s : List Char)
    (hok : ∀ c ∈ s, c.toNat ≠ 0 ∧ c.toNat ≠ 34 ∧ c.toNat ≠ 92 ∧
      c.toNat ≠ 10 ∧ c.toNat ≠ 13 ∧ c.toNat ≠ 0x2028 ∧ c.toNat ≠ 0x2029) :
    read_string ('"' :: (s ++ ['"'])) 0 =
      .ok (Token.mk .STRING 0 (s.length + 2) (some (String.mk s))) := by
  have hlen : ('"' :: (s ++ ['"'])).length = s.length + 2 := by simp
  simp only [read_string]
  exact readStringAux_verbatim s hok s.length 0 _ none (by omega) (by omega) (by omega)

/-!
## Lexer claims
-/

/-- C3 (counterexample): lexing `01` from offset 0 does **not** raise a lexical
error at offset 1 — `read_number` has no digit-after-zero check, so the scan
succeeds and returns the INT token `"0"` spanning `[0,1)`. -/
theorem C3_counterexample :
    read_token ("01".toList) 0 = .ok (Token.mk .INT 0 1 (some "0")) ∧
    read_token ("01".toList) 0 ≠ .error (LexErr.mk 1 .invalidNumber) := by
  constructor
  · rfl
  · decide

/-- C3 (amended): lexing `01` from offset 0 succeeds, yielding the INT token `0`
with span `[0,1)` and leaving the second character unconsumed (no error is raised);
and in general the integer part of every INT token recognised by `read_number` is
either the single digit `0` or a nonzero digit followed by digits. -/
theorem C3_amended :
    read_token ("01".toList) 0 = .ok (Token.mk .INT 0 1 (some "0")) ∧
    read_token ("01".toList) 1 = .ok (Token.mk .INT 1 2 (some "1")) ∧
    (∀ body start t, read_number body start (char_code_at body start) = .ok t →
      t.kind = .INT →
      intPartShape body (if char_code_at body start = 45 then start + 1 else start)
        t.end_) :=
  ⟨rfl, rfl, fun body start t h hk => (read_number_spec body start t h).2.2.2.2.2.1 hk⟩

/-- C3 (witness): the general integer-part-shape conjunct applied to the concrete
input `10`. -/
theorem C3_witness :
    read_number ("10".toList) 0 (char_code_at ("10".toList) 0) =
      .ok (Token.mk .INT 0 2 (some "10")) ∧
    intPartShape ("10".toList)
      (if char_code_at ("10".toList) 0 = 45 then 0 + 1 else 0)
      (Token.mk .INT 0 2 (some "10")).end_ :=
  ⟨rfl, C3_amended.2.2 ("10".toList) 0 (Token.mk .INT 0 2 (some "10")) rfl rfl⟩

/-- C4 (counterexample): an exponent with no fractional part does **not** lex as a
FLOAT — `is_float` is set only in the fraction branch (the exponent branch is nested
inside it), so `1e5` lexes as the INT token `"1"` spanning `[0,1)`. -/
theorem C4_counterexample :
    read_token ("1e5".toList) 0 = .ok (Token.mk .INT 0 1 (some "1")) ∧
    read_token ("1e5".toList) 0 ≠ .ok (Token.mk .FLOAT 0 3 (some "1e5")) := by
  constructor
  · rfl
  · decide

/-- C4 (amended): a successfully lexed number is FLOAT exactly when a fractional
part was present in the matched text (an exponent can only follow a fraction), INT
otherwise, and its value is the exact matched substring; `1.5e-10` lexes as one
FLOAT with value `"1.5e-10"`, while `1e5` lexes as INT `"1"` followed by the name
`e5`. -/
theorem C4_amended :
    read_token ("1.5e-10".toList) 0 = .ok (Token.mk .FLOAT 0 7 (some "1.5e-10")) ∧
    read_token ("1e5".toList) 0 = .ok (Token.mk .INT 0 1 (some "1")) ∧
    read_token ("1e5".toList) 1 = .ok (Token.mk .NAME 1 3 (some "e5")) ∧
    (∀ body start t, read_number body start (char_code_at body start) = .ok t →
      (t.kind = .INT ∨ t.kind = .FLOAT) ∧
      t.value = some (slice body t.start t.end_) ∧
      (t.kind = .FLOAT ↔ ∃ i, t.start ≤ i ∧ i < t.end_ ∧ char_code_at body i = 46)) := by
  refine ⟨rfl, rfl, rfl, ?_⟩
  intro body start t h
  obtain ⟨_, _, _, hv, hk, _, hiff⟩ := read_number_spec body start t h
  exact ⟨hk, hv, hiff⟩

/-- C4 (witness): the general conjunct applied to the concrete input `1.5e-10`. -/
theorem C4_witness :
    read_number ("1.5e-10".toList) 0 (char_code_at ("1.5e-10".toList) 0) =
      .ok (Token.mk .FLOAT 0 7 (some "1.5e-10")) ∧
    ((Token.mk .FLOAT 0 7 (some "1.5e-10")).kind = .INT ∨
      (Token.mk .FLOAT 0 7 (some "1.5e-10")).kind = .FLOAT) ∧
    (Token.mk .FLOAT 0 7 (some "1.5e-10")).value =
      some (slice ("1.5e-10".toList) (Token.mk .FLOAT 0 7 (some "1.5e-10")).start
        (Token.mk .FLOAT 0 7 (some "1.5e-10")).end_) ∧
    ((Token.mk .FLOAT 0 7 (some "1.5e-10")).kind = .FLOAT ↔
      ∃ i, (Token.mk .FLOAT 0 7 (some "1.5e-10")).start ≤ i ∧
        i < (Token.mk .FLOAT 0 7 (some "1.5e-10")).end_ ∧
        char_code_at ("1.5e-10".toList) i = 46) :=
  ⟨rfl, C4_amended.2.2.2 ("1.5e-10".toList) 0 (Token.mk .FLOAT 0 7 (some "1.5e-10")) rfl⟩

/-- C5 (counterexample): lexing `..` from offset 0 raises the unexpected-character
error at offset 0 (the position of the first dot, where `read_token` falls through
to its final `raise`), not at offset 1 as the claim states. -/
theorem C5_counterexample :
    read_token ("..".toList) 0 = .error (LexErr.mk 0 .unexpectedCharacter) ∧
    read_token ("..".toList) 0 ≠ .error (LexErr.mk 1 .unexpectedCharacter) := by
  constructor
  · rfl
  · decide

/-- C5 (amended): three consecutive dots lex as one SPREAD token spanning exactly
those three characters; any other dot sequence raises an unexpected-character error
at the offset of the **first** dot — in particular `..` from offset 0 fails at
offset 0. -/
theorem C5_amended :
    read_token ("...".toList) 0 = .ok (Token.mk .SPREAD 0 3 none) ∧
    read_token ("..".toList) 0 = .error (LexErr.mk 0 .unexpectedCharacter) ∧
    (∀ body p, char_code_at body (position_after_whitespace body p) = 46 →
      ¬(char_code_at body (position_after_whitespace body p + 1) = 46 ∧
        char_code_at body (position_after_whitespace body p + 2) = 46) →
      read_token body p =
        .error (LexErr.mk (position_after_whitespace body p) .unexpectedCharacter)) := by
  refine ⟨rfl, rfl, ?_⟩
  intro body p hdot hnot
  have hlt : position_after_whitespace body p < body.length :=
    char_code_at_lt_of_ne_zero body _ (by omega)
  simp only [read_token, hdot]
  rw [if_neg (by omega)]
  simp only [punct_code_to_kind, if_true]
  rw [if_neg hnot]

/-- C5 (witness): the general conjunct applied to the concrete input `.a`. -/
theorem C5_witness :
    char_code_at (".a".toList) (position_after_whitespace (".a".toList) 0) = 46 ∧
    ¬(char_code_at (".a".toList) (position_after_whitespace (".a".toList) 0 + 1) = 46 ∧
      char_code_at (".a".toList) (position_after_whitespace (".a".toList) 0 + 2) = 46) ∧
    read_token (".a".toList) 0 =
      .error (LexErr.mk (position_after_whitespace (".a".toList) 0) .unexpectedCharacter) :=
  ⟨rfl, by decide, C5_amended.2.2 (".a".toList) 0 rfl (by decide)⟩

/-- C6 (counterexample): the body `"\"` — an opening quote, the escape
backslash-quote, then end-of-input, with no closing delimiter — does **not** raise an
unterminated-string error.  The escape branch reassigns `code` to 34, the loop then
exits at end-of-input, and the post-loop check `if code != 34` passes on that stale
value, so `read_string` returns a STRING token of value `"` whose end offset (4)
lies one past the 3-character buffer. -/
theorem C6_counterexample :
    read_string ("\"\\\"".toList) 0 = .ok (Token.mk .STRING 0 4 (some "\"")) ∧
    ("\"\\\"".toList).length = 3 :=
  ⟨rfl, rfl⟩

/-- C6 (amended): a double-quoted string lexes to one STRING token spanning the
opening through closing quote inclusive whose value is the decoded content —
non-escaped runs verbatim (general conjunct), all eight single-character escapes,
`\uXXXX` decoded from four hex digits (invalid hex raising a bad-escape error), the
concrete example `"abc"` with value `abc` and span `[0,5)`.  A string that reaches a
line terminator raises an unterminated-string error, and one that reaches
end-of-input raises too — *unless* the last consumed escape was backslash-quote, in
which case the post-loop termination check passes on the stale escape code and the
scan returns a STRING token ending one past the end of the buffer (final two
conjuncts). -/
theorem C6_read_string_decoding :
    (∀ s : List Char, (∀ c ∈ s, c.toNat ≠ 0 ∧ c.toNat ≠ 34 ∧ c.toNat ≠ 92 ∧
        c.toNat ≠ 10 ∧ c.toNat ≠ 13 ∧ c.toNat ≠ 0x2028 ∧ c.toNat ≠ 0x2029) →
      read_string ('"' :: (s ++ ['"'])) 0 =
        .ok (Token.mk .STRING 0 (s.length + 2) (some (String.mk s)))) ∧
    read_token ("\"abc\"".toList) 0 = .ok (Token.mk .STRING 0 5 (some "abc")) ∧
    read_string ("\"\\\"\"".toList) 0 = .ok (Token.mk .STRING 0 4 (some "\"")) ∧
    read_string ("\"\\/\"".toList) 0 = .ok (Token.mk .STRING 0 4 (some "/")) ∧
    read_string ("\"\\\\\"".toList) 0 = .ok (Token.mk .STRING 0 4 (some "\\")) ∧
    read_string ("\"\\b\"".toList) 0 =
      .ok (Token.mk .STRING 0 4 (some (String.mk [Char.ofNat 8]))) ∧
    read_string ("\"\\f\"".toList) 0 =
      .ok (Token.mk .STRING 0 4 (some (String.mk [Char.ofNat 12]))) ∧
    read_string ("\"\\n\"".toList) 0 = .ok (Token.mk .STRING 0 4 (some "\n")) ∧
    read_string ("\"\\r\"".toList) 0 = .ok (Token.mk .STRING 0 4 (some "\r")) ∧
    read_string ("\"\\t\"".toList) 0 = .ok (Token.mk .STRING 0 4 (some "\t")) ∧
    read_string ("\"ab\\nc\"".toList) 0 = .ok (Token.mk .STRING 0 7 (some "ab\nc")) ∧
    read_string ("\"\\u0041\"".toList) 0 = .ok (Token.mk .STRING 0 8 (some "A")) ∧
    read_string ("\"\\u00G1\"".toList) 0 = .error (LexErr.mk 2 .badCharacterEscape) ∧
    read_string ("\"abc".toList) 0 = .error (LexErr.mk 4 .unterminatedString) ∧
    read_string ("\"a\nb\"".toList) 0 = .error (LexErr.mk 2 .unterminatedString) ∧
    read_string ("\"\\\"".toList) 0 = .ok (Token.mk .STRING 0 4 (some "\"")) ∧
    read_string ("\"ab\\\"".toList) 0 = .ok (Token.mk .STRING 0 6 (some "ab\"")) :=
  ⟨read_string_verbatim, rfl, rfl, rfl, rfl, rfl, rfl, rfl, rfl, rfl, rfl, rfl, rfl,
    rfl, rfl, rfl, rfl⟩

/-- C6 (witness): the verbatim conjunct applied to the concrete content `xyz`. -/
theorem C6_witness :
    (∀ c ∈ ("xyz".toList), c.toNat ≠ 0 ∧ c.toNat ≠ 34 ∧ c.toNat ≠ 92 ∧
      c.toNat ≠ 10 ∧ c.toNat ≠ 13 ∧ c.toNat ≠ 0x2028 ∧ c.toNat ≠ 0x2029) ∧
    read_string ('"' :: ("xyz".toList ++ ['"'])) 0 =
      .ok (Token.mk .STRING 0 ("xyz".toList.length + 2) (some (String.mk "xyz".toList))) :=
  ⟨by decide, C6_read_string_decoding.1 ("xyz".toList) (by decide)⟩

/-- C7 (confirmed): on a source with no lexical error, repeatedly calling
`next_token` with no explicit position from offset 0 makes strict progress — every
call advances `prev_position` to the returned token's end, every non-EOF token has a
nonempty span — and the process consumes the entire source and terminates (within
`body.length + 2` steps) in exactly one EOF token, the last of the run, which is
zero-width and sits at or past the end of the source.  (It can sit one past —
at `body.length + 1` — exactly when the preceding STRING token was accepted through
the stale backslash-quote escape and so itself ends one past the buffer.) -/
theorem C7_lexer_resumability (body : List Char) :
    lexAll (body.length + 2) (Lexer.mk body 0) ≠ none ∧
    (∀ ts, lexAll (body.length + 2) (Lexer.mk body 0) = some (.ok ts) →
      (∃ t, ts.getLast? = some t ∧ t.kind = .EOF ∧ t.start = t.end_ ∧
        body.length ≤ t.start ∧ t.value = none) ∧
      ts.countP (fun tok => tok.kind = .EOF) = 1 ∧
      ∀ tok ∈ ts, tok.kind ≠ .EOF → tok.start < tok.end_) ∧
    (∀ l t l', next_token l none = .ok (t, l') →
      l'.prev_position = t.end_ ∧ l'.source = l.source ∧
      read_token l.source l.prev_position = .ok t) := by
  refine ⟨(lexAll_spec body _ 0 (by omega) (by omega)).1,
    (lexAll_spec body _ 0 (by omega) (by omega)).2, ?_⟩
  intro l t l' h
  simp only [next_token, Option.getD] at h
  rcases hrt : read_token l.source l.prev_position with e | tok
  · rw [hrt] at h
    exact absurd h (by simp)
  · rw [hrt] at h
    injection h with h
    injection h with h1 h2
    subst h1
    subst h2
    exact ⟨rfl, rfl, rfl⟩

/-- C7 (witness): the resumability properties instantiated on the concrete source
`a 1`, whose error-free run is `NAME, INT, EOF`. -/
theorem C7_witness :
    lexAll ("a 1".toList.length + 2) (Lexer.mk ("a 1".toList) 0) =
      some (.ok [Token.mk .NAME 0 1 (some "a"), Token.mk .INT 2 3 (some "1"),
        Token.mk .EOF 3 3 none]) ∧
    ((∃ t, [Token.mk .NAME 0 1 (some "a"), Token.mk .INT 2 3 (some "1"),
        Token.mk .EOF 3 3 none].getLast? = some t ∧ t.kind = .EOF ∧
        t.start = t.end_ ∧ ("a 1".toList).length ≤ t.start ∧ t.value = none) ∧
    List.countP (fun tok => tok.kind = .EOF)
      [Token.mk .NAME 0 1 (some "a"), Token.mk .INT 2 3 (some "1"),
        Token.mk .EOF 3 3 none] = 1 ∧
    ∀ tok ∈ [Token.mk .NAME 0 1 (some "a"), Token.mk .INT 2 3 (some "1"),
        Token.mk .EOF 3 3 none], tok.kind ≠ .EOF → tok.start < tok.end_) :=
  ⟨rfl, (C7_lexer_resumability ("a 1".toList)).2.1 _ rfl⟩

/-!
## Validation lemmas and claims
-/

theorem dictGet_insert_self : ∀ (m : List (String × Node)) (k : String) (v : Node),
    dictGet (dictInsert m k v) k = some v := by
  intro m
  induction m with
  | nil => intro k v; simp [dictInsert, dictGet]
  | cons p rest ih =>
    intro k v
    rcases p with ⟨k', v'⟩
    simp only [dictInsert]
    split
    · simp [dictGet]
    · rename_i hne
      simp only [dictGet]
      rw [if_neg hne]
      exact ih k v

theorem dictGet_insert_ne : ∀ (m : List (String × Node)) (k k' : String) (v : Node),
    k' ≠ k → dictGet (dictInsert m k' v) k = dictGet m k := by
  intro m
  induction m with
  | nil => intro k k' v hne; simp [dictInsert, dictGet, hne]
  | cons p rest ih =>
    intro k k' v hne
    rcases p with ⟨k0, v0⟩
    simp only [dictInsert]
    split
    · rename_i heq
      subst heq
      simp [dictGet, hne, Ne.symm hne]
    · simp only [dictGet]
      split
      · rfl
      · exact ih k k' v hne

/-- The cache-building fold realizes "later definitions overwrite earlier ones":
looking up `name` in the built dictionary equals the left fold that keeps the last
fragment definition with that name. -/
theorem dictGet_buildFragments (name : String) :
    ∀ (ds : List Node) (m : List (String × Node)),
      dictGet (ds.foldl
        (fun m d =>
          match d with
          | .fragmentDefinition fname _ => dictInsert m fname d
          | _ => m) m) name =
      ds.foldl
        (fun acc d =>
          match d with
          | .fragmentDefinition fname _ => if fname = name then some d else acc
          | _ => acc) (dictGet m name) := by
  intro ds
  induction ds with
  | nil => intro m; rfl
  | cons d rest ih =>
    intro m
    simp only [List.foldl_cons]
    rcases d with ds' | ⟨n, sels⟩ | ⟨fname, sels⟩ | n | ⟨n, sels⟩ <;>
      simp only []
    case fragmentDefinition =>
      by_cases hfn : fname = name
      · subst hfn
        rw [ih, dictGet_insert_self]
        simp
      · rw [ih, dictGet_insert_ne _ _ _ _ hfn]
        simp [hfn]
    all_goals exact ih m

/-- C8 (confirmed): `get_fragment` is memoized — on a context whose cache is not yet
built, the first call scans the document's top-level definitions exactly once
(instrumentation counter 1) and installs the built name-to-definition map; every
later call, for any name, performs no scan (counter 0), leaves the context
unchanged, and a repeated lookup of the same name returns the identical cached
result. -/
theorem C8_get_fragment_memoized (ctx : ValidationContext) (name name' : String)
    (h : ctx._fragments = none) :
    (get_fragment ctx name).2.2 = 1 ∧
    (get_fragment ctx name).2.1._fragments =
      some (buildFragments (docDefinitions ctx._ast)) ∧
    (get_fragment (get_fragment ctx name).2.1 name').2.2 = 0 ∧
    (get_fragment (get_fragment ctx name).2.1 name').2.1 = (get_fragment ctx name).2.1 ∧
    (get_fragment (get_fragment ctx name).2.1 name).1 = (get_fragment ctx name).1 := by
  simp [get_fragment, h]

/-- C8 (witness): memoization observed on a concrete context over a one-fragment
document. -/
theorem C8_witness :
    (ValidationContext.mk (Node.document [fragG]) none)._fragments = none ∧
    ((get_fragment (ValidationContext.mk (Node.document [fragG]) none) "G").2.2 = 1 ∧
    (get_fragment (ValidationContext.mk (Node.document [fragG]) none) "G").2.1._fragments =
      some (buildFragments (docDefinitions
        (ValidationContext.mk (Node.document [fragG]) none)._ast)) ∧
    (get_fragment (get_fragment (ValidationContext.mk (Node.document [fragG]) none) "G").2.1
      "H").2.2 = 0 ∧
    (get_fragment (get_fragment (ValidationContext.mk (Node.document [fragG]) none) "G").2.1
        "H").2.1 =
      (get_fragment (ValidationContext.mk (Node.document [fragG]) none) "G").2.1 ∧
    (get_fragment (get_fragment (ValidationContext.mk (Node.document [fragG]) none) "G").2.1
        "G").1 =
      (get_fragment (ValidationContext.mk (Node.document [fragG]) none) "G").1) :=
  ⟨rfl, C8_get_fragment_memoized (ValidationContext.mk (Node.document [fragG]) none) "G" "H" rfl⟩

/-- C10 (confirmed): `get_fragment` returns `none` (rather than raising) when no
top-level fragment has the requested name, and with several same-named fragment
definitions it returns the last one in document order: on a fresh context the lookup
equals the left fold keeping the last matching FragmentDefinition
(`specLastFragmentNamed`), which is `none` when no definition matches; concretely,
two definitions named `A` resolve to the second, and a missing name yields `none`. -/
theorem C10_get_fragment_last_wins :
    (∀ (ds : List Node) (name : String),
      (get_fragment (ValidationContext.mk (Node.document ds) none) name).1 =
        specLastFragmentNamed ds name) ∧
    (get_fragment (ValidationContext.mk (Node.document [fragA1, fragA2]) none) "A").1 =
      some fragA2 ∧
    (get_fragment (ValidationContext.mk (Node.document [fragA1, fragA2]) none) "B").1 =
      none := by
  refine ⟨?_, rfl, rfl⟩
  intro ds name
  simp only [get_fragment, docDefinitions, buildFragments, specLastFragmentNamed]
  exact dictGet_buildFragments name ds []

/-- C9 (confirmed): `validate` signals precondition violations immediately — a falsy
schema, a missing document, or a schema that is not a `GraphQLSchema` instance makes
it raise (`AssertionError`) rather than return any (in particular any empty) error
sequence. -/
theorem C9_validate_preconditions (fuel : Nat) (schema : SchemaArg) (ast : Option Node)
    (rules : List Rule)
    (h : schema.truthy = false ∨ ast = none ∨ schema.isSchemaInstance = false) :
    validate fuel schema ast rules = .error .assertionError := by
  simp only [validate]
  by_cases h1 : schema.truthy = true
  · rw [if_neg (by simp [h1])]
    by_cases h2 : ast.isNone = true
    · rw [if_pos (by simpa using h2)]
    · rw [if_neg (by simpa using h2)]
      rcases h with h | h | h
      · rw [h1] at h; exact absurd h (by simp)
      · rw [h] at h2; simp at h2
      · rw [if_pos (by simp [h])]
  · rw [if_pos (by simpa using h1)]

/-- C9 (witness): the precondition failure on a missing schema (and separately on a
missing document and a non-schema object), observed concretely. -/
theorem C9_witness :
    ((SchemaArg.noneA.truthy = false ∨ some skipCaseDoc = none ∨
        SchemaArg.noneA.isSchemaInstance = false) ∧
      validate 1 .noneA (some skipCaseDoc) [] = .error .assertionError) ∧
    validate 1 .otherA (some skipCaseDoc) [] = .error .assertionError ∧
    validate 1 (.schemaA ⟨⟩) none [] = .error .assertionError :=
  ⟨⟨Or.inl rfl, C9_validate_preconditions 1 .noneA (some skipCaseDoc) [] (Or.inl rfl)⟩,
    rfl, rfl⟩

/-- C2 (counterexample): the TypeInfo stack does **not** stay balanced.  On the
document `[operation, fragment G]` under a rule with the spread-fragment capability,
the fragment definition is reached at key index 1 (truthy), the early
`return False` in `ValidationVisitor.enter` skips the `type_info.leave` call, and a
complete traversal that started with an empty TypeInfo stack finishes with a
nonempty one — the fragment's `TypeInfo.enter` has no matching `TypeInfo.leave` (the
document's own `leave` pops the stale fragment entry instead, stranding the
document's entry). -/
theorem C2_counterexample :
    visitList spreadContinueRule (fragmentLookup skipCaseDoc) true 5
      (VisitorState.mk [] []) [(skipCaseDoc, none)] =
      some (VisitorState.mk [skipCaseDoc] []) ∧
    ([skipCaseDoc] : List Node) ≠ [] := by
  constructor
  · rfl
  · simp

/-- C2 (amended): `ValidationVisitor.enter` always pushes the node's TypeInfo
context first; when the *rule-call result* is skip or errors (converted to `False`)
the context is popped before `enter` returns, so the traversal continues with the
TypeInfo stack exactly as it was (errors appended); but in the
FragmentDefinition-at-truthy-key case under a spread-visiting rule, `enter` returns
`False` through the early return **without** popping, so the traversal continues
with the node still on the TypeInfo stack. -/
theorem C2_amended (rule : Rule) (frags : String → Option Node) (vsf : Bool)
    (fuel : Nat) (st : VisitorState) (node : Node) (key : Option Nat)
    (rest : List (Node × Option Nat)) :
    (node.isFragmentDefinition = true → keyTruthy key = true → vsf = true →
      visitList rule frags vsf (fuel + 1) st ((node, key) :: rest) =
        visitList rule frags vsf fuel
          (VisitorState.mk (node :: st.typeInfo) st.errors) rest) ∧
    (¬(node.isFragmentDefinition = true ∧ keyTruthy key = true ∧ vsf = true) →
      (convertResult (rule.enter node key)).1 = .falseR →
      visitList rule frags vsf (fuel + 1) st ((node, key) :: rest) =
        visitList rule frags vsf fuel
          (VisitorState.mk st.typeInfo
            (st.errors ++ (convertResult (rule.enter node key)).2)) rest) := by
  constructor
  · intro h1 h2 h3
    simp only [visitList]
    rw [if_pos (by simp [h1, h2, h3])]
  · intro hn hc
    simp only [visitList]
    rw [if_neg (by simp only [Bool.and_eq_true]; tauto)]
    rw [hc]
    simp

/-- C2 (witness): the two behaviours of `enter` observed concretely — the
unbalancing skip case on a fragment definition at key 1, and the balanced pop for a
rule that returns skip. -/
theorem C2_witness :
    ((fragG.isFragmentDefinition = true ∧ keyTruthy (some 1) = true ∧ true = true) ∧
      visitList spreadContinueRule (fun _ => none) true (3 + 1) (VisitorState.mk [] [])
          [(fragG, some 1)] =
        visitList spreadContinueRule (fun _ => none) true 3
          (VisitorState.mk [fragG] []) []) ∧
    ((convertResult (skipRule.enter (Node.field "x" []) (some 0))).1 = .falseR ∧
      visitList skipRule (fun _ => none) false (3 + 1) (VisitorState.mk [] [])
          [(Node.field "x" [], some 0)] =
        visitList skipRule (fun _ => none) false 3
          (VisitorState.mk []
            ([] ++ (convertResult (skipRule.enter (Node.field "x" []) (some 0))).2)) []) :=
  ⟨⟨⟨rfl, rfl, rfl⟩,
      (C2_amended spreadContinueRule (fun _ => none) true 3 (VisitorState.mk [] [])
        fragG (some 1) []).1 rfl rfl rfl⟩,
    ⟨rfl,
      (C2_amended skipRule (fun _ => none) false 3 (VisitorState.mk [] [])
        (Node.field "x" []) (some 0) []).2 (by simp [skipRule]) rfl⟩⟩

/-- One traversal step on the self-spreading fragment `F` at a falsy key: the rule
continues, so the traversal descends into the fragment's selections — the spread. -/
theorem visit_fragF_step (f : Nat) (st : VisitorState) (rest : List (Node × Option Nat))
    (key : Option Nat) (hkey : keyTruthy key = false) :
    visitList spreadContinueRule (fragmentLookup cyclicDoc) true (f + 1) st
        ((fragF, key) :: rest) =
      match visitList spreadContinueRule (fragmentLookup cyclicDoc) true f
          (VisitorState.mk (fragF :: st.typeInfo) (st.errors ++ []))
          [(Node.fragmentSpread "F", some 0)] with
      | none => none
      | some st3 =>
        visitList spreadContinueRule (fragmentLookup cyclicDoc) true f
          (applyLeave spreadContinueRule fragF st3) rest := by
  simp only [visitList]
  rw [if_neg (by simp [fragF, Node.isFragmentDefinition, hkey])]
  rfl

/-- One traversal step on the spread of `F`: the rule continues and has the spread
capability, so `enter` recursively visits the referenced fragment as a fresh root
before the ordinary traversal resumes. -/
theorem visit_spreadF_step (f : Nat) (st : VisitorState)
    (rest : List (Node × Option Nat)) (key : Option Nat) :
    visitList spreadContinueRule (fragmentLookup cyclicDoc) true (f + 1) st
        ((Node.fragmentSpread "F", key) :: rest) =
      match visitList spreadContinueRule (fragmentLookup cyclicDoc) true f
          (VisitorState.mk (Node.fragmentSpread "F" :: st.typeInfo) (st.errors ++ []))
          [(fragF, none)] with
      | none => none
      | some st2 =>
        match visitList spreadContinueRule (fragmentLookup cyclicDoc) true f st2 [] with
        | none => none
        | some st3 =>
          visitList spreadContinueRule (fragmentLookup cyclicDoc) true f
            (applyLeave spreadContinueRule (Node.fragmentSpread "F") st3) rest := rfl

/-- Under the always-continue spread-visiting rule, visiting the self-spreading
fragment `F` (or its spread) of `cyclicDoc` exhausts any finite recursion budget:
each pass through the spread re-enters the fragment through
`visit(fragment, self)` in `ValidationVisitor.enter`. -/
theorem cyclic_visit_diverges :
    ∀ fuel : Nat,
      (∀ st rest key, keyTruthy key = false →
        visitList spreadContinueRule (fragmentLookup cyclicDoc) true fuel st
          ((fragF, key) :: rest) = none) ∧
      (∀ st rest key,
        visitList spreadContinueRule (fragmentLookup cyclicDoc) true fuel st
          ((Node.fragmentSpread "F", key) :: rest) = none) := by
  intro fuel
  induction fuel with
  | zero => exact ⟨fun _ _ _ _ => rfl, fun _ _ _ => rfl⟩
  | succ f ih =>
    constructor
    · intro st rest key hkey
      rw [visit_fragF_step f st rest key hkey, ih.2]
    · intro st rest key
      rw [visit_spreadF_step f st rest key, ih.1 _ _ none rfl]

/-- One traversal step on the cyclic document itself: descend into its single
definition, the fragment `F`, at key index 0. -/
theorem visit_cyclicDoc_step (f : Nat) (st : VisitorState) :
    visitList spreadContinueRule (fragmentLookup cyclicDoc) true (f + 1) st
        [(cyclicDoc, none)] =
      match visitList spreadContinueRule (fragmentLookup cyclicDoc) true f
          (VisitorState.mk (cyclicDoc :: st.typeInfo) (st.errors ++ []))
          [(fragF, some 0)] with
      | none => none
      | some st3 =>
        visitList spreadContinueRule (fragmentLookup cyclicDoc) true f
          (applyLeave spreadContinueRule cyclicDoc st3) [] := rfl

/-- C1 (counterexample): a document containing a fragment that spreads itself,
validated under a rule set containing a spread-visiting rule that always continues,
never terminates: no recursion budget suffices — `validate` exhausts every fuel
bound instead of producing an error sequence. -/
theorem C1_counterexample :
    ¬ validateTerminates (SchemaArg.schemaA ⟨⟩) (some cyclicDoc) [spreadContinueRule] := by
  rintro ⟨fuel, errs, h⟩
  have hvisit : ∀ f, visitList spreadContinueRule (fragmentLookup cyclicDoc) true f
      (VisitorState.mk [] []) [(cyclicDoc, none)] = none := by
    intro f
    match f with
    | 0 => rfl
    | f + 1 =>
      rw [visit_cyclicDoc_step f _, (cyclic_visit_diverges f).1 _ _ (some 0) rfl]
  simp [validate, visit_using_rules, runRules, SchemaArg.truthy,
    SchemaArg.isSchemaInstance,
    show spreadContinueRule.visit_spread_fragments = true from rfl, hvisit] at h

theorem weightTasks_pos : ∀ ns : List Node, 1 ≤ weightTasks ns := by
  intro ns
  cases ns <;> simp [weightTasks]

theorem tagChildren_map_fst (ns : List Node) :
    (tagChildren ns).map Prod.fst = ns := by
  simp only [tagChildren, List.map_map]
  have : (Prod.fst ∘ fun p : Nat × Node => (p.2, some p.1)) = Prod.snd := by
    funext p
    rfl
  rw [this, List.enum_map_snd]

/-- For a rule without the spread-fragment capability the traversal is structurally
bounded: fuel `weightTasks` of the pending nodes always suffices. -/
theorem visitList_terminates_no_vsf (rule : Rule) (frags : String → Option Node) :
    ∀ (fuel : Nat) (tasks : List (Node × Option Nat)) (st : VisitorState),
      weightTasks (tasks.map Prod.fst) ≤ fuel →
      visitList rule frags false fuel st tasks ≠ none := by
  intro fuel
  induction fuel with
  | zero =>
    intro tasks st hw
    have := weightTasks_pos (tasks.map Prod.fst)
    omega
  | succ f ih =>
    intro tasks st hw
    match tasks with
    | [] => simp [visitList]
    | (node, key) :: rest =>
      have hw' : weightTasks (node :: rest.map Prod.fst) =
          1 + max (weightTasks node.children) (weightTasks (rest.map Prod.fst)) := by
        simp [weightTasks]
      simp only [List.map_cons] at hw
      rw [hw'] at hw
      simp only [visitList]
      rw [if_neg (by simp)]
      rw [if_neg (by simp)]
      dsimp only
      split
      · -- rule result False: skip subtree, continue with the siblings
        exact ih rest _ (by omega)
      · -- descend into the children, then the siblings
        rcases hc : visitList rule frags false f
            { typeInfo := node :: st.typeInfo,
              errors := st.errors ++ (convertResult (rule.enter node key)).2 }
            (tagChildren node.children) with _ | st3
        · exact absurd hc (ih (tagChildren node.children) _
            (by rw [tagChildren_map_fst]; omega))
        · dsimp only
          exact ih rest _ (by omega)

/-- C1 (amended): the generic adapter itself does not bound the spread-inlining
recursion — with a fragment cycle and a spread-visiting rule that keeps continuing,
`validate` diverges (see the counterexample).  Termination holds for every rule set
none of whose rules opts into spread-fragment visiting: `validate` then returns an
error sequence within a fuel bound determined by the document alone. -/
theorem C1_validate_terminates_without_spread_rules (schema : GraphQLSchema)
    (doc : Node) (rules : List Rule)
    (hr : ∀ r ∈ rules, r.visit_spread_fragments = false) :
    validateTerminates (SchemaArg.schemaA schema) (some doc) rules := by
  have hrun : ∀ (rs : List Rule) (st : VisitorState),
      (∀ r ∈ rs, r.visit_spread_fragments = false) →
      runRules (weightTasks [doc]) (fragmentLookup doc) doc rs st ≠ none := by
    intro rs
    induction rs with
    | nil => intro st _; simp [runRules]
    | cons r rest ih =>
      intro st hall
      simp only [runRules]
      rw [hall r (by simp)]
      rcases hv : visitList r (fragmentLookup doc) false (weightTasks [doc]) st
          [(doc, none)] with _ | st'
      · exact absurd hv
          (visitList_terminates_no_vsf r (fragmentLookup doc) (weightTasks [doc])
            [(doc, none)] st (by simp))
      · exact ih st' (fun r' hr' => hall r' (by simp [hr']))
  have hex : ∃ st', runRules (weightTasks [doc]) (fragmentLookup doc) doc rules
      (VisitorState.mk [] []) = some st' := by
    rcases hrr : runRules (weightTasks [doc]) (fragmentLookup doc) doc rules
        (VisitorState.mk [] []) with _ | st'
    · exact absurd hrr (hrun rules _ hr)
    · exact ⟨st', rfl⟩
  obtain ⟨st', hst'⟩ := hex
  exact ⟨weightTasks [doc], st'.errors,
    by simp [validate, SchemaArg.truthy, SchemaArg.isSchemaInstance, visit_using_rules,
      hst']⟩

/-- C1 (witness): termination observed for a concrete rule set without the spread
capability on a concrete document. -/
theorem C1_witness :
    (∀ r ∈ [plainContinueRule], r.visit_spread_fragments = false) ∧
    validateTerminates (SchemaArg.schemaA ⟨⟩) (some skipCaseDoc) [plainContinueRule] :=
  ⟨by simp [plainContinueRule],
    C1_validate_terminates_without_spread_rules ⟨⟩ skipCaseDoc [plainContinueRule]
      (by simp [plainContinueRule])⟩

end GraphQL
